import Mathlib

/-
Shallow embedding of the `rest-client` repository (the `RESTClient` class in
its most complete variant: pluggable fetch function, `HEAD` returning headers,
`OPTIONS` returning the parsed `Allow` header), together with executable
models of the platform primitives the class uses: JSON serialization and
parsing (numbers restricted to integers), plain-record header maps and the
`deepMerge` helper, `URLSearchParams` serialization, and URL resolution.
-/

/-! ## Character helpers -/

/-- Decimal digit test on the code point, `0` through `9`. -/
def isDigitCh (c : Char) : Bool := 48 ≤ c.toNat && c.toNat ≤ 57

/-- JSON insignificant whitespace: space, tab, line feed, carriage return. -/
def isJsonWS (c : Char) : Bool :=
  c.toNat = 32 || c.toNat = 9 || c.toNat = 10 || c.toNat = 13

/-- ASCII whitespace matched by the regular expression class used in
`allow.split`: space, tab, line feed, vertical tab, form feed,
carriage return. -/
def isRegexWS (c : Char) : Bool :=
  c.toNat = 32 || c.toNat = 9 || c.toNat = 10 || c.toNat = 11 ||
  c.toNat = 12 || c.toNat = 13

/-- Lowercase hexadecimal digit for a value below 16, as emitted inside
JSON `\u00XX` escapes. -/
def hexLower (n : Nat) : Char :=
  if n < 10 then Char.ofNat (48 + n) else Char.ofNat (87 + n)

/-- Uppercase hexadecimal digit for a value below 16, as emitted by
percent-encoding. -/
def hexUpper (n : Nat) : Char :=
  if n < 10 then Char.ofNat (48 + n) else Char.ofNat (55 + n)

/-- Decimal digits of a natural number, most significant first. -/
def natDigits (n : Nat) : List Char :=
  if h : n < 10 then [Char.ofNat (48 + n)]
  else natDigits (n / 10) ++ [Char.ofNat (48 + n % 10)]
termination_by n
decreasing_by
  exact Nat.div_lt_self (by omega) (by omega)

/-- Decimal rendering of an integer, as JavaScript renders integral numbers. -/
def encInt (n : Int) : List Char :=
  if n < 0 then '-' :: natDigits n.natAbs else natDigits n.natAbs

/-! ## JSON values

The model of the JavaScript values the client serializes and parses.
Numbers are modelled as integers. -/

/-- JSON values. -/
inductive Json where
  | null
  | bool (b : Bool)
  | num (n : Int)
  | str (s : String)
  | arr (elems : List Json)
  | obj (fields : List (String × Json))

/-- JavaScript truthiness of a JSON value: `null`, `false`, `0` and the
empty string are falsy; arrays and objects are always truthy. -/
def Json.truthy : Json → Bool
  | .null => false
  | .bool b => b
  | .num n => n != 0
  | .str s => s != ""
  | .arr _ => true
  | .obj _ => true

/-- The escape sequence `JSON.stringify` emits for one character of a
string: quote and backslash are backslash-escaped, the named control
characters use their two-character escapes, other control characters use
`\u00XX`, and everything else is emitted verbatim. -/
def escapeChar (c : Char) : List Char :=
  if c.toNat = 34 then ['\\', '"']
  else if c.toNat = 92 then ['\\', '\\']
  else if c.toNat = 8 then ['\\', 'b']
  else if c.toNat = 12 then ['\\', 'f']
  else if c.toNat = 10 then ['\\', 'n']
  else if c.toNat = 13 then ['\\', 'r']
  else if c.toNat = 9 then ['\\', 't']
  else if c.toNat < 32 then
    ['\\', 'u', '0', '0', hexLower (c.toNat / 16), hexLower (c.toNat % 16)]
  else [c]

/-- Serialized form of a JSON string: double quotes around the escaped
characters. -/
def encStr (s : String) : List Char :=
  '"' :: (s.data.map escapeChar).flatten ++ ['"']

mutual

/-- Characters of `JSON.stringify` applied to a JSON value. -/
def encJ : Json → List Char
  | .null => "null".data
  | .bool true => "true".data
  | .bool false => "false".data
  | .num n => encInt n
  | .str s => encStr s
  | .arr xs => '[' :: encElemsL xs ++ [']']
  | .obj fs => Char.ofNat 123 :: encFieldsL fs ++ [Char.ofNat 125]

/-- Comma-separated serialization of array elements. -/
def encElemsL : List Json → List Char
  | [] => []
  | [x] => encJ x
  | x :: y :: t => encJ x ++ ',' :: encElemsL (y :: t)

/-- Comma-separated serialization of object entries. -/
def encFieldsL : List (String × Json) → List Char
  | [] => []
  | [(k, v)] => encStr k ++ ':' :: encJ v
  | (k, v) :: q :: t => encStr k ++ ':' :: encJ v ++ ',' :: encFieldsL (q :: t)

end

/-- `JSON.stringify`. -/
def Json.stringify (v : Json) : String := String.mk (encJ v)

/-! ## JSON parsing (the model of `res.json()`) -/

/-- Apply a function to the first component under `Option`. -/
def mapFst (f : α → β) : Option (α × γ) → Option (β × γ)
  | none => none
  | some (a, c) => some (f a, c)

/-- Drop leading JSON whitespace. -/
def skipWS : List Char → List Char
  | [] => []
  | c :: rest => if isJsonWS c then skipWS rest else c :: rest

/-- Value of a hexadecimal digit character. -/
def parseHex (c : Char) : Option Nat :=
  if 48 ≤ c.toNat ∧ c.toNat ≤ 57 then some (c.toNat - 48)
  else if 97 ≤ c.toNat ∧ c.toNat ≤ 102 then some (c.toNat - 87)
  else if 65 ≤ c.toNat ∧ c.toNat ≤ 70 then some (c.toNat - 55)
  else none

/-- Parse the body of a JSON string up to and including the closing quote,
decoding escape sequences; returns the decoded characters and the input
remaining after the closing quote. -/
def parseStringBody : List Char → Option (List Char × List Char)
  | [] => none
  | c :: rest =>
    if c.toNat = 34 then some ([], rest)
    else if c.toNat = 92 then
      match rest with
      | [] => none
      | e :: rest2 =>
        if e.toNat = 34 then mapFst (List.cons '"') (parseStringBody rest2)
        else if e.toNat = 92 then mapFst (List.cons '\\') (parseStringBody rest2)
        else if e.toNat = 47 then mapFst (List.cons '/') (parseStringBody rest2)
        else if e.toNat = 98 then mapFst (List.cons (Char.ofNat 8)) (parseStringBody rest2)
        else if e.toNat = 102 then mapFst (List.cons (Char.ofNat 12)) (parseStringBody rest2)
        else if e.toNat = 110 then mapFst (List.cons '\n') (parseStringBody rest2)
        else if e.toNat = 114 then mapFst (List.cons '\r') (parseStringBody rest2)
        else if e.toNat = 116 then mapFst (List.cons '\t') (parseStringBody rest2)
        else if e.toNat = 117 then
          match rest2 with
          | h1 :: h2 :: h3 :: h4 :: rest3 =>
            match parseHex h1, parseHex h2, parseHex h3, parseHex h4 with
            | some n1, some n2, some n3, some n4 =>
              let n := ((n1 * 16 + n2) * 16 + n3) * 16 + n4
              if Nat.isValidChar n then
                mapFst (List.cons (Char.ofNat n)) (parseStringBody rest3)
              else none
            | _, _, _, _ => none
          | _ => none
        else none
    else mapFst (List.cons c) (parseStringBody rest)

/-- Parse a run of decimal digits as a natural number. -/
def parseNat (cs : List Char) : Option (Nat × List Char) :=
  let ds := cs.takeWhile isDigitCh
  if ds.isEmpty then none
  else some (ds.foldl (fun a c => a * 10 + (c.toNat - 48)) 0, cs.dropWhile isDigitCh)

mutual

/-- Fueled recursive-descent parser for a JSON value. -/
def parseVal : Nat → List Char → Option (Json × List Char)
  | 0, _ => none
  | fuel + 1, cs =>
    match skipWS cs with
    | [] => none
    | c :: rest =>
      if c.toNat = 110 then
        match rest with
        | 'u' :: 'l' :: 'l' :: rest2 => some (.null, rest2)
        | _ => none
      else if c.toNat = 116 then
        match rest with
        | 'r' :: 'u' :: 'e' :: rest2 => some (.bool true, rest2)
        | _ => none
      else if c.toNat = 102 then
        match rest with
        | 'a' :: 'l' :: 's' :: 'e' :: rest2 => some (.bool false, rest2)
        | _ => none
      else if c.toNat = 34 then
        mapFst (fun l => Json.str (String.mk l)) (parseStringBody rest)
      else if c.toNat = 45 then
        mapFst (fun (m : Nat) => Json.num (-(Int.ofNat m))) (parseNat rest)
      else if c.toNat = 91 then
        match skipWS rest with
        | [] => none
        | c2 :: rest2 =>
          if c2.toNat = 93 then some (.arr [], rest2)
          else mapFst Json.arr (parseElems fuel (c2 :: rest2))
      else if c.toNat = 123 then
        match skipWS rest with
        | [] => none
        | c2 :: rest2 =>
          if c2.toNat = 125 then some (.obj [], rest2)
          else mapFst Json.obj (parseFields fuel (c2 :: rest2))
      else if isDigitCh c then
        mapFst (fun m => Json.num (Int.ofNat m)) (parseNat (c :: rest))
      else none

/-- Fueled parser for the comma-separated elements of a non-empty JSON
array, up to and including the closing bracket. -/
def parseElems : Nat → List Char → Option (List Json × List Char)
  | 0, _ => none
  | fuel + 1, cs =>
    match parseVal fuel cs with
    | none => none
    | some (v, rest) =>
      match skipWS rest with
      | [] => none
      | c :: rest2 =>
        if c.toNat = 44 then mapFst (fun vs => v :: vs) (parseElems fuel rest2)
        else if c.toNat = 93 then some ([v], rest2)
        else none

/-- Fueled parser for the comma-separated entries of a non-empty JSON
object, up to and including the closing brace. -/
def parseFields : Nat → List Char → Option (List (String × Json) × List Char)
  | 0, _ => none
  | fuel + 1, cs =>
    match skipWS cs with
    | [] => none
    | c :: rest =>
      if c.toNat = 34 then
        match parseStringBody rest with
        | none => none
        | some (k, rest2) =>
          match skipWS rest2 with
          | [] => none
          | c2 :: rest3 =>
            if c2.toNat = 58 then
              match parseVal fuel rest3 with
              | none => none
              | some (v, rest4) =>
                match skipWS rest4 with
                | [] => none
                | c3 :: rest5 =>
                  if c3.toNat = 44 then
                    mapFst (fun fs => (String.mk k, v) :: fs) (parseFields fuel rest5)
                  else if c3.toNat = 125 then some ([(String.mk k, v)], rest5)
                  else none
            else none
      else none

end

/-- `JSON.parse` (the model of `res.json()`): parse one value and require
only whitespace after it. -/
def Json.parse (s : String) : Option Json :=
  match parseVal (2 * s.data.length + 2) s.data with
  | some (v, rest) => if (skipWS rest).isEmpty then some v else none
  | none => none

/-- Round-trip property of one JSON value: parsing its serialization,
followed by any continuation that does not begin with a digit, yields the
value and the continuation, for every sufficient fuel. -/
def ParseRT (v : Json) : Prop :=
  ∀ fuel rest, 2 * (encJ v).length ≤ fuel →
    (∀ c, rest.head? = some c → isDigitCh c = false) →
    parseVal fuel (encJ v ++ rest) = some (v, rest)

/-- Induction principle for JSON values giving the inductive hypothesis
on every array element and every object field value. -/
def Json.indOn {motive : Json → Prop} (hnull : motive .null)
    (hbool : ∀ b, motive (.bool b)) (hnum : ∀ n, motive (.num n))
    (hstr : ∀ s, motive (.str s))
    (harr : ∀ xs, (∀ x ∈ xs, motive x) → motive (.arr xs))
    (hobj : ∀ fs, (∀ p ∈ fs, motive p.2) → motive (.obj fs)) :
    ∀ v, motive v
  | .null => hnull
  | .bool b => hbool b
  | .num n => hnum n
  | .str s => hstr s
  | .arr xs => harr xs (fun x hx =>
      Json.indOn hnull hbool hnum hstr harr hobj x)
  | .obj fs => hobj fs (fun p hp =>
      Json.indOn hnull hbool hnum hstr harr hobj p.2)
termination_by v => sizeOf v
decreasing_by
  · have h1 := List.sizeOf_lt_of_mem hx
    simp only [Json.arr.sizeOf_spec]
    omega
  · have h1 := List.sizeOf_lt_of_mem hp
    have h2 : sizeOf p.2 < sizeOf p := by
      obtain ⟨a, b⟩ := p
      simp only [Prod.mk.sizeOf_spec]
      omega
    simp only [Json.obj.sizeOf_spec]
    omega

/-! ## Header maps and `deepMerge` -/

/-- Case-sensitive lookup in a plain-record header map, as JavaScript
object property access. -/
def lookupHeader (hs : List (String × String)) (k : String) : Option String :=
  (hs.find? (fun p => p.1 == k)).map (·.2)

/-- Key-by-key merge of two plain-record header maps, the model of
`deepMerge` from `@cross/deepmerge` on two records: keys of the first
record keep their position but take the second record's value when the key
occurs there; keys only in the second record are appended in order. -/
def mergeHeaders (a b : List (String × String)) : List (String × String) :=
  (a.map (fun p =>
    match lookupHeader b p.1 with
    | some v => (p.1, v)
    | none => p))
  ++ b.filter (fun p => (lookupHeader a p.1).isNone)

/-- ASCII lowercase of one character, as header names are case-folded. -/
def lowerCh (c : Char) : Char :=
  if 65 ≤ c.toNat ∧ c.toNat ≤ 90 then Char.ofNat (c.toNat + 32) else c

/-- ASCII lowercase of a string. -/
def lowerStr (s : String) : String := String.mk (s.data.map lowerCh)

/-- Case-insensitive lookup, the model of `Headers.get` on a response. -/
def headersGet (hs : List (String × String)) (k : String) : Option String :=
  (hs.find? (fun p => lowerStr p.1 == lowerStr k)).map (·.2)

/-- The request-configuration bag `RequestInit`: the fields the client
touches, plus `credentials` standing for the remaining scalar
configuration fields. `none` models an absent property. -/
structure RequestInit where
  method : Option String := none
  headers : List (String × String) := []
  body : Option String := none
  credentials : Option String := none
deriving Repr, DecidableEq

/-- Merge one scalar (non-record) field: a property present in the second
bag overwrites, an absent one leaves the first bag's value. -/
def mergeField (a b : Option α) : Option α :=
  match b with
  | some v => some v
  | none => a

/-- `deepMerge` from `@cross/deepmerge` on two `RequestInit` bags: scalar
fields are overwritten by present properties of the second bag, the
`headers` record is merged key by key. -/
def RequestInit.deepMerge (a b : RequestInit) : RequestInit where
  method := mergeField a.method b.method
  headers := mergeHeaders a.headers b.headers
  body := mergeField a.body b.body
  credentials := mergeField a.credentials b.credentials

/-! ## Responses, errors, the client -/

/-- A fetch `Response`: status, response headers, and the body text. -/
structure Response where
  status : Nat
  headers : List (String × String)
  bodyText : String
deriving Repr, DecidableEq

/-- `Response.ok` from the fetch API: status in the inclusive range
200 to 299. -/
def Response.ok (res : Response) : Bool :=
  decide (200 ≤ res.status) && decide (res.status ≤ 299)

/-- `RESTError`: the typed error raised on a response whose status is not
ok, carrying the request method, the resolved URL and the response. -/
structure RESTError where
  method : String
  url : String
  response : Response
deriving Repr, DecidableEq

/-- Errors a parsed-body verb call can surface: the typed `RESTError`, or
whatever error JSON parsing of the body raises. -/
inductive ClientError where
  | restError (e : RESTError)
  | parseFailure
deriving Repr, DecidableEq

/-- The `RESTClient` class state: the fetch function, the base URL and the
stored default options. -/
structure RESTClient where
  fetchFn : String → RequestInit → Response
  baseURL : String
  defaultOptions : RequestInit

/-- The constructor: optional base URL (default empty), optional default
options (default empty bag, copied), and the fetch function. -/
def mkRESTClient (baseURL : Option String) (defaultOptions : Option RequestInit)
    (fetchFn : String → RequestInit → Response) : RESTClient where
  fetchFn := fetchFn
  baseURL := baseURL.getD ""
  defaultOptions := defaultOptions.getD {}

/-- `updateOptions`: deep-merge the argument into the stored default
options. -/
def RESTClient.updateOptions (c : RESTClient) (options : RequestInit) : RESTClient :=
  { c with defaultOptions := c.defaultOptions.deepMerge options }

/-- `auth`: update the `Authentication` header of the default options with
the token, through `updateOptions`. -/
def RESTClient.auth (c : RESTClient) (token : String) : RESTClient :=
  c.updateOptions { headers := [("Authentication", token)] }

/-! ## URL construction -/

/-- Cut a relative reference at the first question mark into path part and
query part (the question mark stays with the query part). -/
def splitAtQueryL : List Char → List Char × List Char
  | [] => ([], [])
  | c :: rest =>
    if c.toNat = 63 then ([], c :: rest)
    else
      let (p, q) := splitAtQueryL rest
      (c :: p, q)

/-- Cut an authority-then-path character list at the first slash. -/
def splitAuthorityL : List Char → List Char × List Char
  | [] => ([], [])
  | c :: rest =>
    if c.toNat = 47 then ([], c :: rest)
    else
      let (a, p) := splitAuthorityL rest
      (c :: a, p)

/-- Split an absolute URL into its origin (scheme and authority) and the
rest starting at the path. -/
def splitOriginL : List Char → List Char × List Char
  | [] => ([], [])
  | ':' :: '/' :: '/' :: rest =>
    let (a, p) := splitAuthorityL rest
    (':' :: '/' :: '/' :: a, p)
  | c :: rest =>
    let (o, p) := splitOriginL rest
    (c :: o, p)

/-- Directory of a URL path: everything up to and including the last
slash; the root slash when the path has no slash. -/
def dirOfL (p : List Char) : List Char :=
  if p.contains '/' then (p.reverse.dropWhile (fun c => c.toNat != 47)).reverse
  else ['/']

/-- Modelled from the spec: the URL resolution performed by
`buildAbsoluteURL` of the external `url-toolkit` dependency, which is not
part of this repository. Following the spec's resolution rules: a relative
path beginning with a dot-slash or with a bare segment is appended to the
directory of the base URL's path, an absolute path overrides the base's
path entirely, and the relative reference's query string is carried over. -/
def resolveURL (base rel : String) : String :=
  let pq := splitAtQueryL rel.data
  let ob := splitOriginL base.data
  let path :=
    if pq.1.head? = some '/' then pq.1
    else
      let stripped := if pq.1.take 2 = ['.', '/'] then pq.1.drop 2 else pq.1
      dirOfL ob.2 ++ stripped
  String.mk (ob.1 ++ path ++ pq.2)

/-- Bytes kept verbatim by `application/x-www-form-urlencoded`
percent-encoding: asterisk, minus, period, underscore, digits, letters. -/
def isFormSafeByte (b : Nat) : Bool :=
  b = 42 || b = 45 || b = 46 || b = 95 ||
  (48 ≤ b && b ≤ 57) || (65 ≤ b && b ≤ 90) || (97 ≤ b && b ≤ 122)

/-- Encoding of one byte under `application/x-www-form-urlencoded`: space
becomes plus, safe bytes stay, everything else is percent-escaped. -/
def encodeFormByte (b : Nat) : List Char :=
  if b = 32 then ['+']
  else if isFormSafeByte b then [Char.ofNat b]
  else ['%', hexUpper (b / 16), hexUpper (b % 16)]

/-- The UTF-8 bytes of one character. -/
def utf8Bytes (c : Char) : List Nat :=
  let n := c.toNat
  if n < 128 then [n]
  else if n < 2048 then [192 + n / 64, 128 + n % 64]
  else if n < 65536 then [224 + n / 4096, 128 + (n / 64) % 64, 128 + n % 64]
  else [240 + n / 262144, 128 + (n / 4096) % 64, 128 + (n / 64) % 64, 128 + n % 64]

/-- `application/x-www-form-urlencoded` encoding of a string over its
UTF-8 bytes, as `URLSearchParams` encodes names and values. -/
def urlencode (s : String) : String :=
  String.mk (((s.data.map utf8Bytes).flatten.map encodeFormByte).flatten)

/-- `URLSearchParams.toString`: encoded name-value pairs joined by
ampersands, in insertion order. -/
def encodeParams (ps : List (String × String)) : String :=
  String.intercalate "&" (ps.map (fun p => urlencode p.1 ++ "=" ++ urlencode p.2))

/-- The URL `send` builds: the optional search string is appended to the
path, and the result is resolved against the client's base URL. -/
def RESTClient.requestURL (c : RESTClient) (path : String)
    (params : Option (List (String × String))) : String :=
  let search :=
    match params with
    | some ps => "?" ++ encodeParams ps
    | none => ""
  resolveURL c.baseURL (path ++ search)

/-- The request URL as the spec phrases it: resolve the path against the
base URL under the resolution rules, then append the query string built
from the parameters when they are provided. -/
def specRequestURL (base path : String)
    (params : Option (List (String × String))) : String :=
  match params with
  | some ps => resolveURL base path ++ "?" ++ encodeParams ps
  | none => resolveURL base path

/-! ## The send path and the verb methods -/

/-- The options `send` passes to the fetch function: a copy of the per-call
options with the method set; when the body argument is truthy, the
`Content-Type: application/json` header is merged in and the JSON
serialization of the body becomes the payload. The stored default options
are not consulted. -/
def requestOpt (method : String) (data : Option Json)
    (options : Option RequestInit) : RequestInit :=
  let base := options.getD {}
  let opt := { base with method := some method }
  match data with
  | some d =>
    if d.truthy then
      { opt with
        headers := mergeHeaders opt.headers [("Content-Type", "application/json")],
        body := some (Json.stringify d) }
    else opt
  | none => opt

/-- `send`: build the URL and options, perform the fetch, raise `RESTError`
when the response is not ok, return the response otherwise. -/
def RESTClient.send (c : RESTClient) (method path : String)
    (params : Option (List (String × String))) (data : Option Json)
    (options : Option RequestInit) : Except RESTError Response :=
  let url := c.requestURL path params
  let opt := requestOpt method data options
  let res := c.fetchFn url opt
  if res.ok then Except.ok res else Except.error ⟨method, url, res⟩

/-- The private parsed-body helper: `send`, then parse the response body
as JSON. -/
def RESTClient.getParsedResponseBody (c : RESTClient) (method path : String)
    (params : Option (List (String × String))) (data : Option Json)
    (options : Option RequestInit) : Except ClientError Json :=
  match c.send method path params data options with
  | .error e => .error (.restError e)
  | .ok res =>
    match Json.parse res.bodyText with
    | some v => .ok v
    | none => .error .parseFailure

/-- `get`: parsed body, no request body. -/
def RESTClient.get (c : RESTClient) (path : String)
    (params : Option (List (String × String)))
    (options : Option RequestInit) : Except ClientError Json :=
  c.getParsedResponseBody "GET" path params none options

/-- `head`: returns the response headers, the body is never touched. -/
def RESTClient.head (c : RESTClient) (path : String)
    (params : Option (List (String × String)))
    (options : Option RequestInit) : Except RESTError (List (String × String)) :=
  match c.send "HEAD" path params none options with
  | .error e => .error e
  | .ok res => .ok res.headers

/-- `post`: parsed body, optional request body. -/
def RESTClient.post (c : RESTClient) (path : String)
    (params : Option (List (String × String))) (data : Option Json)
    (options : Option RequestInit) : Except ClientError Json :=
  c.getParsedResponseBody "POST" path params data options

/-- `put`: parsed body, optional request body. -/
def RESTClient.put (c : RESTClient) (path : String)
    (params : Option (List (String × String))) (data : Option Json)
    (options : Option RequestInit) : Except ClientError Json :=
  c.getParsedResponseBody "PUT" path params data options

/-- `delete`: parsed body, optional request body. -/
def RESTClient.delete (c : RESTClient) (path : String)
    (params : Option (List (String × String))) (data : Option Json)
    (options : Option RequestInit) : Except ClientError Json :=
  c.getParsedResponseBody "DELETE" path params data options

/-- `patch`: parsed body, optional request body. -/
def RESTClient.patch (c : RESTClient) (path : String)
    (params : Option (List (String × String))) (data : Option Json)
    (options : Option RequestInit) : Except ClientError Json :=
  c.getParsedResponseBody "PATCH" path params data options

/-! ## The split used by the `options` verb -/

/-- Cut a character list at every comma: first raw chunk, then the chunks
after each comma. -/
def splitCommaL : List Char → List Char × List (List Char)
  | [] => ([], [])
  | c :: rest =>
    let (t, ts) := splitCommaL rest
    if c.toNat = 44 then ([], t :: ts) else (c :: t, ts)

/-- Drop leading regex whitespace. -/
def trimLeadWS (l : List Char) : List Char := l.dropWhile isRegexWS

/-- Drop trailing regex whitespace. -/
def trimTrailWS (l : List Char) : List Char := (l.reverse.dropWhile isRegexWS).reverse

/-- The chunks after the first comma, as the split regular expression
treats them: whitespace adjacent to each comma is consumed, so every chunk
loses its leading whitespace, and every chunk but the last also loses its
trailing whitespace. -/
def adjustTail : List (List Char) → List (List Char)
  | [] => []
  | [t] => [trimLeadWS t]
  | t :: u :: ts => trimLeadWS (trimTrailWS t) :: adjustTail (u :: ts)

/-- Model of the JavaScript split on the comma-with-surrounding-whitespace
regular expression: each separator is a comma together with the whitespace
runs immediately before and after it. -/
def splitWsComma (s : String) : List String :=
  match splitCommaL s.data with
  | (t, []) => [String.mk t]
  | (t, u :: ts) =>
    String.mk (trimTrailWS t) :: (adjustTail (u :: ts)).map String.mk

/-- The split as the spec phrases it: comma-separated, with whitespace
trimmed around each token. -/
def specAllowSplit (s : String) : List String :=
  match splitCommaL s.data with
  | (t, ts) => (t :: ts).map (fun l => String.mk (trimLeadWS (trimTrailWS l)))

/-- What the `options` verb returns: the parsed `Allow` header and whether
the missing-header diagnostic was emitted. -/
structure OptionsResult where
  allow : List String
  warned : Bool
deriving Repr, DecidableEq

/-- `options`: send, then split the `Allow` response header; when the
header is absent, warn and return the empty list. The response body is
never parsed. -/
def RESTClient.options (c : RESTClient) (path : String)
    (params : Option (List (String × String))) (data : Option Json)
    (opts : Option RequestInit) : Except RESTError OptionsResult :=
  match c.send "OPTIONS" path params data opts with
  | .error e => .error e
  | .ok res =>
    match headersGet res.headers "Allow" with
    | none => .ok ⟨[], true⟩
    | some allow => .ok ⟨splitWsComma allow, false⟩

/-- `connect`: send only, no data returned. -/
def RESTClient.connect (c : RESTClient) (path : String)
    (params : Option (List (String × String)))
    (options : Option RequestInit) : Except RESTError Unit :=
  match c.send "CONNECT" path params none options with
  | .error e => .error e
  | .ok _ => .ok ()

/-- `trace`: parsed body, no request body. -/
def RESTClient.trace (c : RESTClient) (path : String)
    (params : Option (List (String × String)))
    (options : Option RequestInit) : Except ClientError Json :=
  c.getParsedResponseBody "TRACE" path params none options

/-! ## Method-call forms

Explicit state-passing translation of the class methods: a call yields the
client state after the call together with the returned value. The verb
method bodies contain no assignment to any field, so they return the
receiver unchanged; `updateOptions` and `auth` return the updated client. -/

/-- `send` as a method call. -/
def RESTClient.sendM (c : RESTClient) (method path : String)
    (params : Option (List (String × String))) (data : Option Json)
    (options : Option RequestInit) : RESTClient × Except RESTError Response :=
  (c, c.send method path params data options)

/-- `get` as a method call. -/
def RESTClient.getM (c : RESTClient) (path : String)
    (params : Option (List (String × String)))
    (options : Option RequestInit) : RESTClient × Except ClientError Json :=
  (c, c.get path params options)

/-- `head` as a method call. -/
def RESTClient.headM (c : RESTClient) (path : String)
    (params : Option (List (String × String)))
    (options : Option RequestInit) :
    RESTClient × Except RESTError (List (String × String)) :=
  (c, c.head path params options)

/-- `post` as a method call. -/
def RESTClient.postM (c : RESTClient) (path : String)
    (params : Option (List (String × String))) (data : Option Json)
    (options : Option RequestInit) : RESTClient × Except ClientError Json :=
  (c, c.post path params data options)

/-- `put` as a method call. -/
def RESTClient.putM (c : RESTClient) (path : String)
    (params : Option (List (String × String))) (data : Option Json)
    (options : Option RequestInit) : RESTClient × Except ClientError Json :=
  (c, c.put path params data options)

/-- `delete` as a method call. -/
def RESTClient.deleteM (c : RESTClient) (path : String)
    (params : Option (List (String × String))) (data : Option Json)
    (options : Option RequestInit) : RESTClient × Except ClientError Json :=
  (c, c.delete path params data options)

/-- `patch` as a method call. -/
def RESTClient.patchM (c : RESTClient) (path : String)
    (params : Option (List (String × String))) (data : Option Json)
    (options : Option RequestInit) : RESTClient × Except ClientError Json :=
  (c, c.patch path params data options)

/-- `options` as a method call. -/
def RESTClient.optionsM (c : RESTClient) (path : String)
    (params : Option (List (String × String))) (data : Option Json)
    (opts : Option RequestInit) : RESTClient × Except RESTError OptionsResult :=
  (c, c.options path params data opts)

/-- `connect` as a method call. -/
def RESTClient.connectM (c : RESTClient) (path : String)
    (params : Option (List (String × String)))
    (options : Option RequestInit) : RESTClient × Except RESTError Unit :=
  (c, c.connect path params options)

/-- `trace` as a method call. -/
def RESTClient.traceM (c : RESTClient) (path : String)
    (params : Option (List (String × String)))
    (options : Option RequestInit) : RESTClient × Except ClientError Json :=
  (c, c.trace path params options)

/-- A transport double returning a fixed response, used by the concrete
instances in this development. -/
def constFetch (res : Response) : String → RequestInit → Response := fun _ _ => res

/-! ## Lemmas about header merging -/

/-- Unfolding equation for `lookupHeader`, for targeted rewriting. -/
theorem lookupHeader_def (l : List (String × String)) (k : String) :
    lookupHeader l k = (l.find? (fun p => p.1 == k)).map (·.2) := rfl

/-- Lookup at a cons cell. -/
theorem lookupHeader_cons (p : String × String) (l : List (String × String))
    (k : String) :
    lookupHeader (p :: l) k = if p.1 == k then some p.2 else lookupHeader l k := by
  rw [lookupHeader_def, lookupHeader_def, List.find?_cons]
  cases h : (p.1 == k) <;> simp [h]

/-- Lookup distributes over append, first list winning. -/
theorem lookupHeader_append (x y : List (String × String)) (k : String) :
    lookupHeader (x ++ y) k = (lookupHeader x k).or (lookupHeader y k) := by
  rw [lookupHeader_def, lookupHeader_def, lookupHeader_def, List.find?_append]
  cases hx : List.find? (fun p => p.1 == k) x <;>
    cases hy : List.find? (fun p => p.1 == k) y <;> simp [Option.or]

/-- Lookup in the rewritten copy of the first record of a merge: present
keys keep their position, the second record's value wins. -/
theorem lookupHeader_mapMerge (b : List (String × String)) (k : String) :
    ∀ a : List (String × String),
      lookupHeader (a.map (fun (p : String × String) =>
        match lookupHeader b p.1 with
        | some v => (p.1, v)
        | none => p)) k =
      (match lookupHeader a k with
       | some w => some ((lookupHeader b k).getD w)
       | none => none)
  | [] => rfl
  | p :: a => by
    rw [List.map_cons, lookupHeader_cons p a k]
    cases hbp : lookupHeader b p.1 with
    | some v =>
      simp only [hbp]
      rw [lookupHeader_cons]
      cases hpk : (p.1 == k) with
      | true =>
        have hbk : lookupHeader b k = some v := by
          rw [← eq_of_beq hpk]; exact hbp
        simp [hpk, hbk]
      | false =>
        simpa [hpk] using lookupHeader_mapMerge b k a
    | none =>
      simp only [hbp]
      rw [lookupHeader_cons]
      cases hpk : (p.1 == k) with
      | true =>
        have hbk : lookupHeader b k = none := by
          rw [← eq_of_beq hpk]; exact hbp
        simp [hpk, hbk]
      | false =>
        simpa [hpk] using lookupHeader_mapMerge b k a

/-- When the key is absent from `a`, filtering `b` by absence-in-`a` does
not change the value looked up at that key. -/
theorem lookupHeader_filter_absent (a : List (String × String)) (k : String)
    (h : lookupHeader a k = none) :
    ∀ b : List (String × String),
      lookupHeader (b.filter (fun p => (lookupHeader a p.1).isNone)) k =
        lookupHeader b k
  | [] => rfl
  | q :: b => by
    rw [lookupHeader_cons]
    by_cases hq : q.1 = k
    · have hkeep : (lookupHeader a q.1).isNone = true := by
        rw [hq, h]; rfl
      rw [List.filter_cons, if_pos hkeep, lookupHeader_cons]
      simp [hq]
    · have hq' : (q.1 == k) = false := by
        simpa using hq
      by_cases hkeep : (lookupHeader a q.1).isNone = true
      · rw [List.filter_cons, if_pos hkeep, lookupHeader_cons]
        simpa [hq'] using lookupHeader_filter_absent a k h b
      · rw [List.filter_cons, if_neg (by simpa using hkeep)]
        simpa [hq'] using lookupHeader_filter_absent a k h b

/-- Lookup in a key-by-key merge: the second record's entry wins, the
first record's entry is used otherwise. -/
theorem lookupHeader_mergeHeaders (a b : List (String × String)) (k : String) :
    lookupHeader (mergeHeaders a b) k = (lookupHeader b k).or (lookupHeader a k) := by
  unfold mergeHeaders
  rw [lookupHeader_append, lookupHeader_mapMerge b k a]
  cases ha : lookupHeader a k with
  | none =>
    rw [lookupHeader_filter_absent a k ha b]
    cases hb : lookupHeader b k <;> simp [Option.or]
  | some w =>
    cases hb : lookupHeader b k <;> simp [Option.or]

/-! ## Claim theorems: C1, C2, C3, C4, C6, C9, C10 -/

/-- C1: the spec says every verb call passes the deep merge of the stored
`defaultOptions` with the per-call options to the transport, so that after
`auth(token)` every request carries the `Authentication` header. The code
does not: `send` builds the transport options from the per-call options
alone, so the stored default options (and the header installed by `auth`)
never reach a request. This theorem evaluates the code at the failing
input: after `auth`, the default options do hold the header, yet the
options handed to the transport for a plain GET contain no
`Authentication` header; the last conjunct shows no request result depends
on the stored default options at all. -/
theorem C1_defaultOptions_never_reach_transport :
    lookupHeader ((mkRESTClient (some "https://api.example.com/api/") none
        (constFetch ⟨200, [], "42"⟩)).auth "Bearer abc123").defaultOptions.headers
      "Authentication" = some "Bearer abc123" ∧
    requestOpt "GET" none none =
      { method := some "GET", headers := [], body := none, credentials := none } ∧
    lookupHeader (requestOpt "GET" none none).headers "Authentication" = none ∧
    (∀ (c : RESTClient) (m path : String) (params : Option (List (String × String)))
      (data : Option Json) (opts : Option RequestInit),
      c.send m path params data opts =
        ({ c with defaultOptions := {} } : RESTClient).send m path params data opts) := by
  refine ⟨by decide, by decide, by decide, ?_⟩
  intro c m path params data opts
  rfl

/-- C2: `updateOptions` deep-merges the argument into the stored default
options: a header present in the argument overwrites the stored value at
that key, every stored header whose key is absent from the argument is
preserved, and scalar fields (here `body` and `method`) are overwritten
when present in the argument and preserved otherwise. -/
theorem C2_updateOptions_deep_merges (c : RESTClient) (o : RequestInit) (k : String) :
    (∀ v, lookupHeader o.headers k = some v →
      lookupHeader (c.updateOptions o).defaultOptions.headers k = some v) ∧
    (lookupHeader o.headers k = none →
      lookupHeader (c.updateOptions o).defaultOptions.headers k =
        lookupHeader c.defaultOptions.headers k) ∧
    (∀ b, o.body = some b → (c.updateOptions o).defaultOptions.body = some b) ∧
    (o.body = none → (c.updateOptions o).defaultOptions.body = c.defaultOptions.body) ∧
    (∀ m, o.method = some m → (c.updateOptions o).defaultOptions.method = some m) ∧
    (o.method = none → (c.updateOptions o).defaultOptions.method = c.defaultOptions.method) := by
  unfold RESTClient.updateOptions RequestInit.deepMerge
  refine ⟨?_, ?_, ?_, ?_, ?_, ?_⟩
  · intro v hv
    simp only [lookupHeader_mergeHeaders, hv, Option.or]
  · intro hv
    simp only [lookupHeader_mergeHeaders, hv, Option.or]
  · intro b hb
    simp [mergeField, hb]
  · intro hb
    simp [mergeField, hb]
  · intro m hm
    simp [mergeField, hm]
  · intro hm
    simp [mergeField, hm]

/-- Witness for C2 at a concrete client: a stored `Content-Type` header
survives an update that only sets `Accept`, and the `Accept` header is
taken from the argument. -/
theorem C2_witness :
    lookupHeader ((mkRESTClient none
        (some { headers := [("Content-Type", "application/json")] })
        (constFetch ⟨200, [], ""⟩)).updateOptions
        { headers := [("Accept", "application/json")] }).defaultOptions.headers
      "Content-Type" = some "application/json" ∧
    lookupHeader ((mkRESTClient none
        (some { headers := [("Content-Type", "application/json")] })
        (constFetch ⟨200, [], ""⟩)).updateOptions
        { headers := [("Accept", "application/json")] }).defaultOptions.headers
      "Accept" = some "application/json" := by
  constructor
  · have h := (C2_updateOptions_deep_merges
      (mkRESTClient none (some { headers := [("Content-Type", "application/json")] })
        (constFetch ⟨200, [], ""⟩))
      { headers := [("Accept", "application/json")] } "Content-Type").2.1 (by decide)
    rw [h]; decide
  · exact (C2_updateOptions_deep_merges
      (mkRESTClient none (some { headers := [("Content-Type", "application/json")] })
        (constFetch ⟨200, [], ""⟩))
      { headers := [("Accept", "application/json")] } "Accept").1
      "application/json" (by decide)

/-- C3: a verb call raises the typed `RESTError` exactly when the response
status lies outside the 2xx range, and the raised error carries the HTTP
method, the resolved URL and the response (status and body); in
particular a POST answered with status 422 surfaces the typed error with
that response attached. -/
theorem C3_error_iff_status_not_ok (c : RESTClient) (m path : String)
    (params : Option (List (String × String))) (data : Option Json)
    (opts : Option RequestInit) (res : Response) :
    (c.fetchFn (c.requestURL path params) (requestOpt m data opts) = res →
      (res.ok = false →
        c.send m path params data opts =
          .error ⟨m, c.requestURL path params, res⟩) ∧
      (res.ok = true → c.send m path params data opts = .ok res)) ∧
    (res.ok = false ↔ ¬(200 ≤ res.status ∧ res.status ≤ 299)) ∧
    (c.fetchFn (c.requestURL path params) (requestOpt "POST" data opts) = res →
      res.status = 422 →
      c.post path params data opts =
        .error (.restError ⟨"POST", c.requestURL path params, res⟩)) := by
  refine ⟨?_, ?_, ?_⟩
  · intro hres
    constructor
    · intro hok
      simp only [RESTClient.send]
      rw [hres, hok]
      rfl
    · intro hok
      simp only [RESTClient.send]
      rw [hres, hok]
      rfl
  · unfold Response.ok
    constructor
    · intro hok hin
      rw [decide_eq_true hin.1, decide_eq_true hin.2] at hok
      exact Bool.noConfusion hok
    · intro hnot
      by_cases h1 : 200 ≤ res.status
      · have h2 : ¬res.status ≤ 299 := fun h => hnot ⟨h1, h⟩
        simp [h2]
      · simp [h1]
  · intro hres h422
    have hok : res.ok = false := by
      unfold Response.ok
      rw [h422]
      rfl
    simp only [RESTClient.post, RESTClient.getParsedResponseBody, RESTClient.send]
    rw [hres, hok]
    rfl

/-- Witness for C3: a concrete POST answered with status 422 raises the
typed error carrying method, resolved URL and the 422 response. -/
theorem C3_witness :
    (mkRESTClient (some "https://api.example.com/api/") none
      (constFetch ⟨422, [], "[\"email taken\"]"⟩)).post "./users" none
        (some (Json.obj [("user", Json.str "foo")])) none =
      .error (.restError ⟨"POST", "https://api.example.com/api/users",
        ⟨422, [], "[\"email taken\"]"⟩⟩) := by
  have h := (C3_error_iff_status_not_ok
    (mkRESTClient (some "https://api.example.com/api/") none
      (constFetch ⟨422, [], "[\"email taken\"]"⟩)) "POST" "./users" none
    (some (Json.obj [("user", Json.str "foo")])) none
    ⟨422, [], "[\"email taken\"]"⟩).2.2 rfl rfl
  rw [h]
  rfl

/-- C4 counterexample: the claim says every provided body yields a
`Content-Type: application/json` header and a serialized payload, but a
provided falsy body (here the empty string) is skipped by the truthiness
test, so neither is set. -/
theorem C4_counterexample :
    ¬(lookupHeader (requestOpt "POST" (some (Json.str "")) none).headers
        "Content-Type" = some "application/json") ∧
    lookupHeader (requestOpt "POST" (some (Json.str "")) none).headers
      "Content-Type" = none ∧
    (requestOpt "POST" (some (Json.str "")) none).body = none := by
  refine ⟨?_, by decide, by decide⟩
  intro h
  have : (none : Option String) = some "application/json" := by
    rw [← h]; decide
  exact Option.noConfusion this

/-- C4 (amended): when a provided body is truthy, the transport options
carry `Content-Type: application/json` and the payload is exactly the
JSON serialization of the body; when no body is provided, the headers and
payload of the per-call options are passed through untouched, so a GET
request whose options carry no `Content-Type` header sends none. -/
theorem C4_body_serialization (m : String) (d : Json) (opts : Option RequestInit)
    (hd : d.truthy = true) :
    lookupHeader (requestOpt m (some d) opts).headers "Content-Type" =
      some "application/json" ∧
    (requestOpt m (some d) opts).body = some (Json.stringify d) ∧
    (∀ o : RequestInit, (requestOpt m none (some o)).headers = o.headers ∧
      (requestOpt m none (some o)).body = o.body) ∧
    (∀ o : Option RequestInit,
      lookupHeader (o.getD {}).headers "Content-Type" = none →
      lookupHeader (requestOpt "GET" none o).headers "Content-Type" = none) := by
  refine ⟨?_, ?_, ?_, ?_⟩
  · unfold requestOpt
    simp only [hd, if_pos]
    rw [lookupHeader_mergeHeaders]
    rfl
  · unfold requestOpt
    simp [hd]
  · intro o
    exact ⟨rfl, rfl⟩
  · intro o ho
    unfold requestOpt
    exact ho

/-- Witness for C4: a concrete truthy POST body installs the JSON content
type and the exact serialization, and a GET with empty options sends no
`Content-Type` header. -/
theorem C4_witness :
    lookupHeader (requestOpt "POST" (some (Json.obj [("name", Json.str "foo")]))
      none).headers "Content-Type" = some "application/json" ∧
    (requestOpt "POST" (some (Json.obj [("name", Json.str "foo")])) none).body =
      some "\x7b\"name\":\"foo\"\x7d" ∧
    lookupHeader (requestOpt "GET" none none).headers "Content-Type" = none := by
  have h := C4_body_serialization "POST" (Json.obj [("name", Json.str "foo")])
    none rfl
  refine ⟨h.1, ?_, h.2.2.2 none (by decide)⟩
  rw [h.2.1]
  decide

/-- C6: a successful HEAD request returns the response's header
collection; the response body is never parsed, so the result does not
depend on the body text at all. -/
theorem C6_head_returns_headers (c : RESTClient) (path : String)
    (params : Option (List (String × String))) (opts : Option RequestInit)
    (res : Response)
    (hres : c.fetchFn (c.requestURL path params) (requestOpt "HEAD" none opts) = res)
    (hok : res.ok = true) :
    c.head path params opts = .ok res.headers := by
  simp only [RESTClient.head, RESTClient.send]
  rw [hres, hok]
  rfl

/-- Witness for C6 at a concrete client whose response body is not JSON at
all: the HEAD call still succeeds and returns the headers. -/
theorem C6_witness :
    (mkRESTClient (some "https://api.example.com/api/") none
      (constFetch ⟨200, [("X-Total", "7")], "this is not json"⟩)).head
        "./tags" none none = .ok [("X-Total", "7")] :=
  C6_head_returns_headers
    (mkRESTClient (some "https://api.example.com/api/") none
      (constFetch ⟨200, [("X-Total", "7")], "this is not json"⟩))
    "./tags" none none ⟨200, [("X-Total", "7")], "this is not json"⟩ rfl rfl

/-- C9: no verb call changes the stored default options: each method-call
form returns the receiver unchanged; only `updateOptions` and `auth`
produce a client with different default options. -/
theorem C9_requests_preserve_defaultOptions (c : RESTClient) (m path : String)
    (params : Option (List (String × String))) (data : Option Json)
    (opts : Option RequestInit) :
    (c.sendM m path params data opts).1.defaultOptions = c.defaultOptions ∧
    (c.getM path params opts).1.defaultOptions = c.defaultOptions ∧
    (c.headM path params opts).1.defaultOptions = c.defaultOptions ∧
    (c.postM path params data opts).1.defaultOptions = c.defaultOptions ∧
    (c.putM path params data opts).1.defaultOptions = c.defaultOptions ∧
    (c.deleteM path params data opts).1.defaultOptions = c.defaultOptions ∧
    (c.patchM path params data opts).1.defaultOptions = c.defaultOptions ∧
    (c.optionsM path params data opts).1.defaultOptions = c.defaultOptions ∧
    (c.connectM path params opts).1.defaultOptions = c.defaultOptions ∧
    (c.traceM path params opts).1.defaultOptions = c.defaultOptions :=
  ⟨rfl, rfl, rfl, rfl, rfl, rfl, rfl, rfl, rfl, rfl⟩

/-- C10: a provided but falsy body (null, false, zero, empty string) is
treated exactly like an absent body, because the body presence test is a
truthiness check: the transport options are identical, so no content type
is set and no payload is serialized. -/
theorem C10_falsy_body_is_absent (m : String) (d : Json)
    (opts : Option RequestInit) (h : d.truthy = false) :
    requestOpt m (some d) opts = requestOpt m none opts ∧
    Json.null.truthy = false ∧
    (Json.bool false).truthy = false ∧
    (Json.num 0).truthy = false ∧
    (Json.str "").truthy = false := by
  refine ⟨?_, rfl, rfl, by decide, by decide⟩
  unfold requestOpt
  simp [h]

/-- Witness for C10: a POST whose body argument is the number zero builds
the same transport options as a POST with no body. -/
theorem C10_witness :
    requestOpt "POST" (some (Json.num 0)) none = requestOpt "POST" none none :=
  (C10_falsy_body_is_absent "POST" (Json.num 0) none (by decide)).1

/-! ## Lemmas about the Allow-header split -/

/-- Dropping by a predicate never lengthens a list. -/
theorem length_dropWhile_le (p : α → Bool) :
    ∀ l : List α, (l.dropWhile p).length ≤ l.length
  | [] => Nat.le_refl 0
  | c :: rest => by
    rw [List.dropWhile_cons]
    by_cases h : p c = true
    · rw [if_pos h]
      exact Nat.le_succ_of_le (length_dropWhile_le p rest)
    · rw [if_neg h]

/-- A list whose head fails the predicate is untouched by `dropWhile`. -/
theorem dropWhile_eq_self_of_head (p : α → Bool) (l : List α)
    (h : ∀ c, l.head? = some c → p c = false) : l.dropWhile p = l := by
  cases l with
  | nil => rfl
  | cons c rest =>
    rw [List.dropWhile_cons, if_neg]
    rw [h c rfl]
    simp

/-- A list untouched by `dropWhile` has a head failing the predicate. -/
theorem head_false_of_dropWhile_eq_self (p : α → Bool) (l : List α)
    (h : l.dropWhile p = l) : ∀ c, l.head? = some c → p c = false := by
  intro c hc
  cases l with
  | nil => exact Option.noConfusion hc
  | cons d rest =>
    have hd : d = c := Option.some.inj hc
    subst hd
    by_cases hp : p d = true
    · rw [List.dropWhile_cons, if_pos hp] at h
      have := length_dropWhile_le p rest
      rw [h] at this
      simp at this
    · simpa using hp

/-- `dropWhile` fixes a prefix of any list it fixes. -/
theorem dropWhile_eq_self_append (p : α → Bool) (x y : List α)
    (h : (x ++ y).dropWhile p = x ++ y) : x.dropWhile p = x := by
  cases x with
  | nil => rfl
  | cons c rest =>
    apply dropWhile_eq_self_of_head
    intro d hd
    have hd' : c = d := Option.some.inj hd
    subst hd'
    exact head_false_of_dropWhile_eq_self p ((c :: rest) ++ y) h c rfl

/-- A list with no trailing whitespace has no trailing whitespace on any
of its suffixes. -/
theorem trimTrailWS_suffix (pre suf : List Char)
    (h : trimTrailWS (pre ++ suf) = pre ++ suf) : trimTrailWS suf = suf := by
  unfold trimTrailWS at *
  rw [← List.reverse_inj] at h
  rw [List.reverse_reverse, List.reverse_append] at h
  rw [← List.reverse_inj, List.reverse_reverse]
  exact dropWhile_eq_self_append isRegexWS suf.reverse pre.reverse h

/-- Every list is its trailing-trimmed part followed by trailing
whitespace. -/
theorem trimTrailWS_append (x : List Char) :
    x = trimTrailWS x ++ (x.reverse.takeWhile isRegexWS).reverse := by
  unfold trimTrailWS
  rw [← List.reverse_inj, List.reverse_append, List.reverse_reverse,
    List.reverse_reverse, List.takeWhile_append_dropWhile]

/-- Trimming the tail of a list with no leading whitespace leaves no
leading whitespace. -/
theorem trimLeadWS_trimTrailWS (x : List Char) (h : trimLeadWS x = x) :
    trimLeadWS (trimTrailWS x) = trimTrailWS x := by
  unfold trimLeadWS at *
  exact dropWhile_eq_self_append isRegexWS (trimTrailWS x)
    (x.reverse.takeWhile isRegexWS).reverse (by rw [← trimTrailWS_append x]; exact h)

/-- Trimming the head of a list with no trailing whitespace leaves no
trailing whitespace. -/
theorem trimTrailWS_trimLeadWS (x : List Char) (h : trimTrailWS x = x) :
    trimTrailWS (trimLeadWS x) = trimLeadWS x := by
  have hx : x = x.takeWhile isRegexWS ++ trimLeadWS x := by
    unfold trimLeadWS
    rw [List.takeWhile_append_dropWhile]
  apply trimTrailWS_suffix (x.takeWhile isRegexWS)
  rw [← hx]
  exact h

/-- Unfolding equation for `splitCommaL` at a cons cell. -/
theorem splitCommaL_cons (c : Char) (rest : List Char) :
    splitCommaL (c :: rest) =
      if c.toNat = 44 then ([], (splitCommaL rest).1 :: (splitCommaL rest).2)
      else (c :: (splitCommaL rest).1, (splitCommaL rest).2) := by
  cases hr : splitCommaL rest with
  | mk t' ts' =>
    rw [splitCommaL, hr]

/-- A comma-free split yields the whole list as its only chunk. -/
theorem splitCommaL_eq_nil : ∀ l t : List Char, splitCommaL l = (t, []) → t = l
  | [], t => by
    intro h
    simpa [splitCommaL] using h.symm
  | c :: rest, t => by
    intro h
    rw [splitCommaL_cons] at h
    by_cases hc : c.toNat = 44
    · rw [if_pos hc] at h
      exact absurd (congrArg Prod.snd h) (by simp)
    · rw [if_neg hc] at h
      have h1 : c :: (splitCommaL rest).1 = t := congrArg Prod.fst h
      have h2 : (splitCommaL rest).2 = ([] : List (List Char)) :=
        congrArg Prod.snd h
      have h3 : splitCommaL rest = ((splitCommaL rest).1, []) := by
        rw [← h2]
      rw [← h1, splitCommaL_eq_nil rest _ h3]

/-- The first chunk of the comma split is the comma-free prefix. -/
theorem splitCommaL_fst : ∀ l : List Char,
    (splitCommaL l).1 = l.takeWhile (fun c => c.toNat != 44)
  | [] => rfl
  | c :: rest => by
    rw [List.takeWhile_cons, splitCommaL_cons]
    by_cases hc : c.toNat = 44
    · simp [hc]
    · simp [hc, splitCommaL_fst rest]

/-- The last chunk of the comma split is a suffix of the list. -/
theorem splitCommaL_last_suffix : ∀ l : List Char,
    ∃ pre, l = pre ++ ((splitCommaL l).2.getLastD (splitCommaL l).1)
  | [] => ⟨[], rfl⟩
  | c :: rest => by
    obtain ⟨pre, hpre⟩ := splitCommaL_last_suffix rest
    by_cases hc : c.toNat = 44
    · have hcons : splitCommaL (c :: rest) =
          ([], (splitCommaL rest).1 :: (splitCommaL rest).2) := by
        rw [splitCommaL_cons, if_pos hc]
      rw [hcons]
      dsimp only
      rw [List.getLastD_cons]
      exact ⟨c :: pre, by simpa using congrArg (List.cons c) hpre⟩
    · have hcons : splitCommaL (c :: rest) =
          (c :: (splitCommaL rest).1, (splitCommaL rest).2) := by
        rw [splitCommaL_cons, if_neg hc]
      rw [hcons]
      dsimp only
      cases hsnd : (splitCommaL rest).2 with
      | nil =>
        have h3 : splitCommaL rest = ((splitCommaL rest).1, []) := by
          rw [← hsnd]
        have hfst := splitCommaL_eq_nil rest _ h3
        exact ⟨[], by simp [List.getLastD, hfst]⟩
      | cons u ts'' =>
        rw [List.getLastD_cons]
        rw [hsnd, List.getLastD_cons] at hpre
        exact ⟨c :: pre, by simpa using congrArg (List.cons c) hpre⟩

/-- When the last chunk carries no trailing whitespace, the regex-faithful
treatment of the chunks after the first coincides with trimming every
chunk on both sides. -/
theorem adjustTail_eq_map : ∀ (u : List Char) (ts : List (List Char)),
    trimTrailWS ((u :: ts).getLastD []) = (u :: ts).getLastD [] →
    adjustTail (u :: ts) = (u :: ts).map (fun x => trimLeadWS (trimTrailWS x))
  | u, [] => by
    intro h
    have h' : trimTrailWS u = u := h
    unfold adjustTail
    rw [List.map_cons, List.map_nil, h']
  | u, v :: ts => by
    intro h
    have htail : trimTrailWS ((v :: ts).getLastD []) = (v :: ts).getLastD [] := h
    unfold adjustTail
    rw [List.map_cons, adjustTail_eq_map v ts htail]

/-- Under the fetch `Headers` invariant that a header value carries no
leading and no trailing whitespace, the JavaScript split on
comma-with-surrounding-whitespace equals the spec's description:
comma-separated with whitespace trimmed around each token. -/
theorem splitWsComma_eq_spec (s : String) (h1 : trimLeadWS s.data = s.data)
    (h2 : trimTrailWS s.data = s.data) : splitWsComma s = specAllowSplit s := by
  unfold splitWsComma specAllowSplit
  cases hsp : splitCommaL s.data with
  | mk t ts =>
    have htpre : ∃ suf, s.data = t ++ suf := by
      have hfst : t = s.data.takeWhile (fun c => c.toNat != 44) := by
        have := splitCommaL_fst s.data
        rw [hsp] at this
        exact this
      refine ⟨s.data.dropWhile (fun c => c.toNat != 44), ?_⟩
      rw [hfst, List.takeWhile_append_dropWhile]
    obtain ⟨suf, hsuf⟩ := htpre
    have htlead : trimLeadWS t = t := by
      unfold trimLeadWS at *
      exact dropWhile_eq_self_append isRegexWS t suf (by rw [← hsuf]; exact h1)
    cases ts with
    | nil =>
      dsimp only
      have ht : t = s.data := splitCommaL_eq_nil s.data t hsp
      rw [List.map_cons, List.map_nil, ht, h2, h1]
    | cons u ts' =>
      dsimp only
      rw [List.map_cons]
      have hhead : trimLeadWS (trimTrailWS t) = trimTrailWS t :=
        trimLeadWS_trimTrailWS t htlead
      rw [hhead]
      have hlast : trimTrailWS ((u :: ts').getLastD []) = (u :: ts').getLastD [] := by
        obtain ⟨pre, hpre⟩ := splitCommaL_last_suffix s.data
        rw [hsp] at hpre
        have hconv : (u :: ts').getLastD t = (u :: ts').getLastD [] := by
          rw [List.getLastD_cons, List.getLastD_cons]
        rw [hconv] at hpre
        exact trimTrailWS_suffix pre _ (by rw [← hpre]; exact h2)
      rw [adjustTail_eq_map u ts' hlast, List.map_map]
      rfl

/-- C7: a successful OPTIONS request returns the `Allow` response header
split into method-name tokens, comma-separated with whitespace trimmed
around each token (the hypotheses that the header value has no leading
and no trailing whitespace are the fetch `Headers` normalization
invariant: header values are stripped of outer HTTP whitespace); when the
`Allow` header is absent the call returns the empty sequence and emits
the diagnostic. No JSON parsing of the body is involved: the response
body text is arbitrary throughout. -/
theorem C7_options_parses_allow (c : RESTClient) (path : String)
    (params : Option (List (String × String))) (data : Option Json)
    (opts : Option RequestInit) (res : Response)
    (hres : c.fetchFn (c.requestURL path params) (requestOpt "OPTIONS" data opts) = res)
    (hok : res.ok = true) :
    (∀ a, headersGet res.headers "Allow" = some a →
      trimLeadWS a.data = a.data → trimTrailWS a.data = a.data →
      c.options path params data opts = .ok ⟨specAllowSplit a, false⟩) ∧
    (headersGet res.headers "Allow" = none →
      c.options path params data opts = .ok ⟨[], true⟩) := by
  constructor
  · intro a hA hlead htrail
    simp [RESTClient.options, RESTClient.send, hres, hok, hA,
      splitWsComma_eq_spec a hlead htrail]
  · intro hA
    simp [RESTClient.options, RESTClient.send, hres, hok, hA]

/-- Witness for C7 at a concrete client: an OPTIONS response whose `Allow`
header is a padded comma-separated list and whose body is not JSON yields
the trimmed method names; a response without the header yields the empty
list with the diagnostic flag. -/
theorem C7_witness :
    (mkRESTClient (some "https://api.example.com/api/") none
      (constFetch ⟨200, [("Allow", "GET, POST ,HEAD")], "no json here"⟩)).options
        "./tags" none none none = .ok ⟨["GET", "POST", "HEAD"], false⟩ ∧
    (mkRESTClient (some "https://api.example.com/api/") none
      (constFetch ⟨204, [], ""⟩)).options "./tags" none none none =
      .ok ⟨[], true⟩ := by
  constructor
  · have h := (C7_options_parses_allow
      (mkRESTClient (some "https://api.example.com/api/") none
        (constFetch ⟨200, [("Allow", "GET, POST ,HEAD")], "no json here"⟩))
      "./tags" none none none ⟨200, [("Allow", "GET, POST ,HEAD")], "no json here"⟩
      rfl rfl).1 "GET, POST ,HEAD" (by decide) (by decide) (by decide)
    rw [h]
    rfl
  · exact (C7_options_parses_allow
      (mkRESTClient (some "https://api.example.com/api/") none
        (constFetch ⟨204, [], ""⟩))
      "./tags" none none none ⟨204, [], ""⟩ rfl rfl).2 (by decide)

/-! ## Lemmas about URL construction -/

/-- A question-mark-free list is all path, no query. -/
theorem splitAtQueryL_no_q : ∀ l : List Char,
    (∀ c ∈ l, c.toNat ≠ 63) → splitAtQueryL l = (l, [])
  | [] => fun _ => rfl
  | c :: rest => fun h => by
    rw [splitAtQueryL, if_neg (h c (List.mem_cons_self c rest)),
      splitAtQueryL_no_q rest (fun d hd => h d (List.mem_cons_of_mem c hd))]

/-- Splitting at the query cuts exactly at the first question mark. -/
theorem splitAtQueryL_append_q : ∀ l q : List Char,
    (∀ c ∈ l, c.toNat ≠ 63) → splitAtQueryL (l ++ '?' :: q) = (l, '?' :: q)
  | [], q => fun _ => by
    rw [List.nil_append, splitAtQueryL, if_pos (show '?'.toNat = 63 by decide)]
  | c :: rest, q => fun h => by
    rw [List.cons_append, splitAtQueryL,
      if_neg (h c (List.mem_cons_self c rest)),
      splitAtQueryL_append_q rest q (fun d hd => h d (List.mem_cons_of_mem c hd))]

/-- C8: the request URL is the path resolved against the base URL under
the resolution rules, with the query string built from the parameters
appended when they are provided (refinement against `specRequestURL`,
stated for paths that carry no query of their own); an absolute path
keeps only the base's origin, a dot-slash or bare path is appended to the
directory of the base's path. -/
theorem C8_requestURL_resolves (c : RESTClient) (path : String)
    (params : Option (List (String × String)))
    (hq : ∀ ch ∈ path.data, ch.toNat ≠ 63) :
    c.requestURL path params = specRequestURL c.baseURL path params ∧
    (path.data.head? = some '/' →
      resolveURL c.baseURL path =
        String.mk ((splitOriginL c.baseURL.data).1 ++ path.data)) ∧
    (∀ p : List Char, path.data = '.' :: '/' :: p →
      resolveURL c.baseURL path =
        String.mk ((splitOriginL c.baseURL.data).1 ++
          (dirOfL (splitOriginL c.baseURL.data).2 ++ p))) ∧
    (path.data.head? ≠ some '/' → path.data.take 2 ≠ ['.', '/'] →
      resolveURL c.baseURL path =
        String.mk ((splitOriginL c.baseURL.data).1 ++
          (dirOfL (splitOriginL c.baseURL.data).2 ++ path.data))) := by
  have hq0 : splitAtQueryL path.data = (path.data, []) := splitAtQueryL_no_q _ hq
  refine ⟨?_, ?_, ?_, ?_⟩
  · cases params with
    | none =>
      simp only [RESTClient.requestURL, specRequestURL, String.append_empty]
    | some ps =>
      simp only [RESTClient.requestURL, specRequestURL]
      have hdata : (path ++ ("?" ++ encodeParams ps)).data =
          path.data ++ '?' :: (encodeParams ps).data := by
        rw [String.data_append, String.data_append]
        rfl
      apply String.ext
      simp only [resolveURL, hdata, hq0,
        splitAtQueryL_append_q path.data (encodeParams ps).data hq]
      rw [String.data_append, String.data_append]
      simp [List.append_assoc]
  · intro hhead
    simp only [resolveURL, hq0, hhead]
    simp
  · intro p hp
    have hhead : path.data.head? = some '.' := by
      rw [hp]; rfl
    have htake : path.data.take 2 = ['.', '/'] := by
      rw [hp]; rfl
    have hdrop : path.data.drop 2 = p := by
      rw [hp]; rfl
    simp only [resolveURL, hq0, hhead, htake, hdrop]
    simp
  · intro hhead htake
    simp only [resolveURL, hq0]
    rw [if_neg (by simpa using hhead), if_neg htake]
    simp

/-- Witness for C8 at the spec's scenario: base
`https://api.example.com/api/`, path `./tags`, query parameters in
insertion order with form encoding applied. -/
theorem C8_witness :
    (mkRESTClient (some "https://api.example.com/api/") none
      (constFetch ⟨200, [], ""⟩)).requestURL "./tags"
        (some [("limit", "5"), ("tag", "a b")]) =
      "https://api.example.com/api/tags?limit=5&tag=a+b" := by
  have h := (C8_requestURL_resolves
    (mkRESTClient (some "https://api.example.com/api/") none
      (constFetch ⟨200, [], ""⟩)) "./tags"
    (some [("limit", "5"), ("tag", "a b")]) (by decide)).1
  rw [h]
  decide

/-! ## Round trip of JSON serialization: numbers -/

/-- Code point of `Char.ofNat` below the surrogate range. -/
theorem toNat_ofNat_lt (n : Nat) (h : n < 55296) : (Char.ofNat n).toNat = n := by
  rw [Char.ofNat, dif_pos (Or.inl h)]
  rfl

/-- A rendered natural number is never empty. -/
theorem natDigits_length (n : Nat) : 1 ≤ (natDigits n).length := by
  rw [natDigits]
  by_cases h : n < 10
  · rw [dif_pos h]
    simp
  · rw [dif_neg h]
    simp

/-- Every character of a rendered natural number is a decimal digit. -/
theorem natDigits_all_digits (n : Nat) :
    ∀ c ∈ natDigits n, 48 ≤ c.toNat ∧ c.toNat ≤ 57 := by
  induction n using Nat.strong_induction_on with
  | _ n ih =>
    intro c hc
    rw [natDigits] at hc
    by_cases h : n < 10
    · rw [dif_pos h] at hc
      have hcd : c = Char.ofNat (48 + n) := by simpa using hc
      subst hcd
      rw [toNat_ofNat_lt (48 + n) (by omega)]
      omega
    · rw [dif_neg h] at hc
      rw [List.mem_append] at hc
      cases hc with
      | inl h1 =>
        have hlt : n / 10 < n := by
          apply Nat.div_lt_self <;> omega
        exact ih (n / 10) hlt c h1
      | inr h2 =>
        have hcd : c = Char.ofNat (48 + n % 10) := by simpa using h2
        subst hcd
        rw [toNat_ofNat_lt (48 + n % 10) (by omega)]
        omega

/-- Folding the decimal digits back recovers the number. -/
theorem natDigits_foldl (n : Nat) : ∀ acc : Nat,
    (natDigits n).foldl (fun a c => a * 10 + (c.toNat - 48)) acc =
      acc * 10 ^ (natDigits n).length + n := by
  induction n using Nat.strong_induction_on with
  | _ n ih =>
    intro acc
    rw [natDigits]
    by_cases h : n < 10
    · rw [dif_pos h]
      simp [toNat_ofNat_lt (48 + n) (by omega)]
    · rw [dif_neg h]
      have hlt : n / 10 < n := by
        apply Nat.div_lt_self <;> omega
      rw [List.foldl_append, ih (n / 10) hlt acc]
      simp only [List.foldl_cons, List.foldl_nil, List.length_append,
        List.length_cons, List.length_nil]
      rw [toNat_ofNat_lt (48 + n % 10) (by omega)]
      rw [pow_succ, ← Nat.mul_assoc]
      generalize acc * 10 ^ (natDigits (n / 10)).length = q
      omega

/-- Take/drop across an all-satisfying prefix followed by a failing head. -/
theorem takeWhile_dropWhile_append (p : α → Bool) : ∀ (l r : List α),
    (∀ c ∈ l, p c = true) → (∀ c, r.head? = some c → p c = false) →
    (l ++ r).takeWhile p = l ∧ (l ++ r).dropWhile p = r
  | [], r => fun _ hr => by
    constructor
    · cases r with
      | nil => rfl
      | cons c r' => simp [List.takeWhile_cons, hr c rfl]
    · exact dropWhile_eq_self_of_head p r hr
  | c :: l, r => fun hl hr => by
    have ih := takeWhile_dropWhile_append p l r
      (fun d hd => hl d (List.mem_cons_of_mem c hd)) hr
    constructor
    · rw [List.cons_append, List.takeWhile_cons,
        if_pos (hl c (List.mem_cons_self c l)), ih.1]
    · rw [List.cons_append, List.dropWhile_cons,
        if_pos (hl c (List.mem_cons_self c l)), ih.2]

/-- Parsing the rendered digits of a natural number recovers it. -/
theorem parseNat_natDigits (m : Nat) (rest : List Char)
    (hb : ∀ c, rest.head? = some c → isDigitCh c = false) :
    parseNat (natDigits m ++ rest) = some (m, rest) := by
  have hall : ∀ c ∈ natDigits m, isDigitCh c = true := by
    intro c hc
    have := natDigits_all_digits m c hc
    simp only [isDigitCh, Bool.and_eq_true, decide_eq_true_eq]
    omega
  obtain ⟨htake, hdrop⟩ := takeWhile_dropWhile_append isDigitCh (natDigits m) rest hall hb
  simp only [parseNat, htake, hdrop]
  have hne : (natDigits m).isEmpty = false := by
    cases hnd : natDigits m with
    | nil =>
      have := natDigits_length m
      rw [hnd] at this
      simp at this
    | cons d tl => rfl
  rw [hne]
  simp only [Bool.false_eq_true, if_false]
  have := natDigits_foldl m 0
  rw [this]
  simp

/-! ## Round trip of JSON serialization: strings -/

/-- Hexadecimal digits emitted by the encoder parse back. -/
theorem hexLower_parse : ∀ q, q < 16 → parseHex (hexLower q) = some q := by decide

/-- The closing quote ends a string body. -/
theorem psb_quote (rest : List Char) : parseStringBody ('"' :: rest) = some ([], rest) := by
  rw [parseStringBody.eq_def]
  simp

/-- An unescaped character is consumed verbatim. -/
theorem psb_raw (c : Char) (rest : List Char) (h34 : ¬c.toNat = 34)
    (h92 : ¬c.toNat = 92) :
    parseStringBody (c :: rest) = mapFst (List.cons c) (parseStringBody rest) := by
  rw [parseStringBody.eq_def]
  simp [h34, h92]

/-- Parsing the escaped characters of a string recovers them. -/
theorem parseStringBody_enc : ∀ (cs : List Char) (rest : List Char),
    parseStringBody ((cs.map escapeChar).flatten ++ '"' :: rest) = some (cs, rest)
  | [], rest => by
    simpa using psb_quote rest
  | c :: cs, rest => by
    have ih := parseStringBody_enc cs rest
    rw [List.map_cons, List.flatten_cons, List.append_assoc]
    by_cases h34 : c.toNat = 34
    · have hc : c = '"' := by rw [← Char.ofNat_toNat c, h34]
      subst hc
      rw [show escapeChar '"' = ['\\', '"'] from rfl]
      rw [parseStringBody.eq_def]
      simp [ih, mapFst]
    · by_cases h92 : c.toNat = 92
      · have hc : c = '\\' := by rw [← Char.ofNat_toNat c, h92]
        subst hc
        rw [show escapeChar '\\' = ['\\', '\\'] from rfl]
        rw [parseStringBody.eq_def]
        simp [ih, mapFst]
      · by_cases h8 : c.toNat = 8
        · have hc : c = Char.ofNat 8 := by rw [← Char.ofNat_toNat c, h8]
          subst hc
          rw [show escapeChar (Char.ofNat 8) = ['\\', 'b'] from by decide]
          rw [parseStringBody.eq_def]
          simp [ih, mapFst]
        · by_cases h12 : c.toNat = 12
          · have hc : c = Char.ofNat 12 := by rw [← Char.ofNat_toNat c, h12]
            subst hc
            rw [show escapeChar (Char.ofNat 12) = ['\\', 'f'] from by decide]
            rw [parseStringBody.eq_def]
            simp [ih, mapFst]
          · by_cases h10 : c.toNat = 10
            · have hc : c = '\n' := by rw [← Char.ofNat_toNat c, h10]
              subst hc
              rw [show escapeChar '\n' = ['\\', 'n'] from by decide]
              rw [parseStringBody.eq_def]
              simp [ih, mapFst]
            · by_cases h13 : c.toNat = 13
              · have hc : c = '\r' := by rw [← Char.ofNat_toNat c, h13]
                subst hc
                rw [show escapeChar '\r' = ['\\', 'r'] from by decide]
                rw [parseStringBody.eq_def]
                simp [ih, mapFst]
              · by_cases h9 : c.toNat = 9
                · have hc : c = '\t' := by rw [← Char.ofNat_toNat c, h9]
                  subst hc
                  rw [show escapeChar '\t' = ['\\', 't'] from by decide]
                  rw [parseStringBody.eq_def]
                  simp [ih, mapFst]
                · by_cases hlt : c.toNat < 32
                  · have hesc : escapeChar c =
                        ['\\', 'u', '0', '0', hexLower (c.toNat / 16),
                          hexLower (c.toNat % 16)] := by
                      simp [escapeChar, h34, h92, h8, h12, h10, h13, h9, hlt]
                    rw [hesc]
                    rw [parseStringBody.eq_def]
                    simp only [List.cons_append, List.nil_append]
                    simp [hexLower_parse (c.toNat / 16) (by omega),
                      hexLower_parse (c.toNat % 16) (by omega),
                      show parseHex '0' = some 0 from rfl]
                    have hn : c.toNat / 16 * 16 + c.toNat % 16 = c.toNat := by omega
                    rw [hn]
                    refine ⟨Or.inl (by omega), ?_⟩
                    rw [Char.ofNat_toNat, ih]
                    rfl
                  · have hesc : escapeChar c = [c] := by
                      simp [escapeChar, h34, h92, h8, h12, h10, h13, h9, hlt]
                    rw [hesc, List.singleton_append, psb_raw c _ h34 h92, ih]
                    rfl

/-! ## Round trip of JSON serialization: shape of the encoder output -/

/-- Serializations are never empty. -/
theorem encJ_length : ∀ v : Json, 1 ≤ (encJ v).length := by
  intro v
  cases v with
  | null => simp [encJ]
  | bool b => cases b <;> simp [encJ]
  | num n =>
    simp only [encJ, encInt]
    by_cases h : n < 0
    · rw [if_pos h]
      simp
    · rw [if_neg h]
      exact natDigits_length _
  | str s => simp [encJ, encStr]
  | arr xs => simp [encJ]
  | obj fs => simp [encJ]

/-- The rendered digits of a natural number start with a digit. -/
theorem natDigits_head (n : Nat) :
    ∃ d tl, natDigits n = d :: tl ∧ 48 ≤ d.toNat ∧ d.toNat ≤ 57 := by
  obtain ⟨d, tl, h⟩ : ∃ d tl, natDigits n = d :: tl := by
    cases hnd : natDigits n with
    | nil =>
      have := natDigits_length n
      rw [hnd] at this
      simp at this
    | cons d tl => exact ⟨d, tl, rfl⟩
  refine ⟨d, tl, h, natDigits_all_digits n d ?_⟩
  rw [h]
  exact List.mem_cons_self d tl

/-- The first character of a serialization: never whitespace, never a
closing bracket. -/
theorem encJ_head (v : Json) :
    ∃ d tl, encJ v = d :: tl ∧ isJsonWS d = false ∧ d.toNat ≠ 93 := by
  cases v with
  | null => exact ⟨'n', _, rfl, by decide, by decide⟩
  | bool b =>
    cases b with
    | false => exact ⟨'f', _, rfl, by decide, by decide⟩
    | true => exact ⟨'t', _, rfl, by decide, by decide⟩
  | num n =>
    by_cases h : n < 0
    · refine ⟨'-', natDigits n.natAbs, ?_, by decide, by decide⟩
      simp [encJ, encInt, h]
    · obtain ⟨d, tl, hd, h48, h57⟩ := natDigits_head n.natAbs
      refine ⟨d, tl, ?_, ?_, by omega⟩
      · simp [encJ, encInt, h, hd]
      · simp only [isJsonWS]
        simp only [decide_eq_true_eq, Bool.or_eq_false_iff, decide_eq_false_iff_not]
        omega
  | str s => exact ⟨'"', _, rfl, by decide, by decide⟩
  | arr xs => exact ⟨'[', _, rfl, by decide, by decide⟩
  | obj fs => exact ⟨Char.ofNat 123, _, rfl, by decide, by decide⟩

/-- Element serializations are never empty. -/
theorem encElemsL_length (x : Json) (xs : List Json) :
    1 ≤ (encElemsL (x :: xs)).length := by
  cases xs with
  | nil =>
    show 1 ≤ (encJ x).length
    exact encJ_length x
  | cons y t =>
    show 1 ≤ (encJ x ++ ',' :: encElemsL (y :: t)).length
    rw [List.length_append]
    have := encJ_length x
    omega

/-- The first character of an element serialization: never whitespace,
never a closing bracket. -/
theorem encElemsL_head (x : Json) (xs : List Json) :
    ∃ d tl, encElemsL (x :: xs) = d :: tl ∧ isJsonWS d = false ∧ d.toNat ≠ 93 := by
  obtain ⟨d, tl, hd, hws, h93⟩ := encJ_head x
  cases xs with
  | nil => exact ⟨d, tl, hd, hws, h93⟩
  | cons y t =>
    refine ⟨d, tl ++ ',' :: encElemsL (y :: t), ?_, hws, h93⟩
    show encJ x ++ ',' :: encElemsL (y :: t) = _
    rw [hd]
    rfl

/-- An entry serialization starts with the key's opening quote. -/
theorem encFieldsL_head (f : String × Json) (fs : List (String × Json)) :
    ∃ tl, encFieldsL (f :: fs) = '"' :: tl := by
  obtain ⟨k, v⟩ := f
  cases fs with
  | nil => exact ⟨_, rfl⟩
  | cons q t => exact ⟨_, rfl⟩

/-- Entry serializations are never empty. -/
theorem encFieldsL_length (f : String × Json) (fs : List (String × Json)) :
    1 ≤ (encFieldsL (f :: fs)).length := by
  obtain ⟨tl, h⟩ := encFieldsL_head f fs
  rw [h]
  simp

/-- A non-whitespace head stops the whitespace skipper. -/
theorem skipWS_cons_false (c : Char) (l : List Char) (h : isJsonWS c = false) :
    skipWS (c :: l) = c :: l := by
  rw [skipWS]
  simp [h]

/-! ## Round trip of JSON serialization: the value parser -/

/-- Unfolding of the element parser at positive fuel. -/
theorem parseElems_succ (f : Nat) (cs : List Char) :
    parseElems (f + 1) cs =
      match parseVal f cs with
      | none => none
      | some (v, rest) =>
        match skipWS rest with
        | [] => none
        | c :: rest2 =>
          if c.toNat = 44 then mapFst (fun vs => v :: vs) (parseElems f rest2)
          else if c.toNat = 93 then some ([v], rest2)
          else none := rfl

/-- Unfolding of the entry parser at positive fuel. -/
theorem parseFields_succ (f : Nat) (cs : List Char) :
    parseFields (f + 1) cs =
      match skipWS cs with
      | [] => none
      | c :: rest =>
        if c.toNat = 34 then
          match parseStringBody rest with
          | none => none
          | some (k, rest2) =>
            match skipWS rest2 with
            | [] => none
            | c2 :: rest3 =>
              if c2.toNat = 58 then
                match parseVal f rest3 with
                | none => none
                | some (v, rest4) =>
                  match skipWS rest4 with
                  | [] => none
                  | c3 :: rest5 =>
                    if c3.toNat = 44 then
                      mapFst (fun fs => (String.mk k, v) :: fs) (parseFields f rest5)
                    else if c3.toNat = 125 then some ([(String.mk k, v)], rest5)
                    else none
              else none
        else none := rfl

/-- Parsing a digit-headed input at positive fuel is number parsing. -/
theorem parseVal_succ_digit (f : Nat) (d : Char) (X : List Char)
    (h48 : 48 ≤ d.toNat) (h57 : d.toNat ≤ 57) :
    parseVal (f + 1) (d :: X) =
      mapFst (fun m => Json.num (Int.ofNat m)) (parseNat (d :: X)) := by
  have hws : isJsonWS d = false := by
    simp only [isJsonWS]
    simp only [Bool.or_eq_false_iff, decide_eq_false_iff_not]
    omega
  have hne : ∀ k : Nat, (48 ≤ k ∧ k ≤ 57) → k ≠ 110 ∧ k ≠ 116 ∧ k ≠ 102 ∧
      k ≠ 34 ∧ k ≠ 45 ∧ k ≠ 91 ∧ k ≠ 123 := by omega
  obtain ⟨n1, n2, n3, n4, n5, n6, n7⟩ := hne d.toNat ⟨h48, h57⟩
  rw [parseVal.eq_def]
  simp only [skipWS_cons_false d X hws]
  rw [if_neg n1, if_neg n2, if_neg n3, if_neg n4, if_neg n5, if_neg n6, if_neg n7]
  rw [if_pos]
  simp only [isDigitCh, Bool.and_eq_true, decide_eq_true_eq]
  omega

/-- Parsing serialized elements up to the closing bracket recovers them. -/
theorem parseElems_enc : ∀ (xs : List Json), xs ≠ [] → (∀ y ∈ xs, ParseRT y) →
    ∀ fuel rest, 2 * (encElemsL xs).length + 2 ≤ fuel →
    parseElems fuel (encElemsL xs ++ ']' :: rest) = some (xs, rest)
  | [], h, _ => absurd rfl h
  | [x], _, hrt => by
    intro fuel rest hfuel
    have hx := hrt x (List.mem_cons_self x [])
    have hlen : (encElemsL [x]).length = (encJ x).length := rfl
    cases fuel with
    | zero => exact absurd hfuel (by omega)
    | succ f =>
      rw [parseElems_succ]
      have hb : ∀ c, (']' :: rest).head? = some c → isDigitCh c = false := by
        intro c hc
        have h2 := Option.some.inj hc
        rw [← h2]
        decide
      have hx' := hx f (']' :: rest) (by omega) hb
      rw [show encElemsL [x] = encJ x from rfl, hx']
      simp [skipWS_cons_false ']' rest (by decide)]
  | x :: y :: t, _, hrt => by
    intro fuel rest hfuel
    have hx := hrt x (List.mem_cons_self x (y :: t))
    have hlx := encJ_length x
    have hlyt := encElemsL_length y t
    have hE : encElemsL (x :: y :: t) = encJ x ++ ',' :: encElemsL (y :: t) := rfl
    have hlen : (encElemsL (x :: y :: t)).length =
        (encJ x).length + 1 + (encElemsL (y :: t)).length := by
      rw [hE, List.length_append, List.length_cons]
      omega
    cases fuel with
    | zero => exact absurd hfuel (by omega)
    | succ f =>
      rw [parseElems_succ]
      have hb : ∀ c, (',' :: (encElemsL (y :: t) ++ ']' :: rest)).head? = some c →
          isDigitCh c = false := by
        intro c hc
        have h2 := Option.some.inj hc
        rw [← h2]
        decide
      have hx' := hx f (',' :: (encElemsL (y :: t) ++ ']' :: rest)) (by omega) hb
      have harr : encElemsL (x :: y :: t) ++ ']' :: rest =
          encJ x ++ (',' :: (encElemsL (y :: t) ++ ']' :: rest)) := by
        rw [hE, List.append_assoc, List.cons_append]
      rw [harr, hx']
      have hrec := parseElems_enc (y :: t) (by simp)
        (fun z hz => hrt z (List.mem_cons_of_mem x hz)) f rest (by omega)
      simp [skipWS_cons_false ',' (encElemsL (y :: t) ++ ']' :: rest) (by decide),
        hrec, mapFst]

/-- Parsing serialized object entries up to the closing brace recovers
them. -/
theorem parseFields_enc : ∀ (fs : List (String × Json)), fs ≠ [] →
    (∀ p ∈ fs, ParseRT p.2) →
    ∀ fuel rest, 2 * (encFieldsL fs).length + 2 ≤ fuel →
    parseFields fuel (encFieldsL fs ++ Char.ofNat 125 :: rest) = some (fs, rest)
  | [], h, _ => absurd rfl h
  | [(k, v)], _, hrt => by
    intro fuel rest hfuel
    have hv : ParseRT v := hrt (k, v) (List.mem_cons_self (k, v) [])
    have hlen : (encFieldsL [(k, v)]).length =
        (k.data.map escapeChar).flatten.length + 3 + (encJ v).length := by
      show (encStr k ++ ':' :: encJ v).length = _
      rw [List.length_append, List.length_cons]
      simp [encStr]
      omega
    cases fuel with
    | zero => exact absurd hfuel (by omega)
    | succ f =>
      have hinput : encFieldsL [(k, v)] ++ Char.ofNat 125 :: rest =
          '"' :: ((k.data.map escapeChar).flatten ++
            '"' :: ':' :: (encJ v ++ Char.ofNat 125 :: rest)) := by
        show (encStr k ++ ':' :: encJ v) ++ _ = _
        simp [encStr, List.append_assoc]
      have hbv : ∀ c, (Char.ofNat 125 :: rest).head? = some c →
          isDigitCh c = false := by
        intro c hc
        have h2 := Option.some.inj hc
        rw [← h2]
        decide
      have hv' := hv f (Char.ofNat 125 :: rest) (by omega) hbv
      rw [hinput, parseFields_succ]
      rw [skipWS_cons_false '"' _ (by decide)]
      simp only [show ('"'.toNat = 34) = True by simp, if_true]
      rw [parseStringBody_enc k.data (':' :: (encJ v ++ Char.ofNat 125 :: rest))]
      simp [skipWS_cons_false ':' (encJ v ++ Char.ofNat 125 :: rest) (by decide),
        hv', skipWS_cons_false (Char.ofNat 125) rest (by decide), mapFst]
  | (k, v) :: q :: t, _, hrt => by
    intro fuel rest hfuel
    have hv : ParseRT v := hrt (k, v) (List.mem_cons_self (k, v) (q :: t))
    have hlq := encFieldsL_length q t
    have hlv := encJ_length v
    have hE : encFieldsL ((k, v) :: q :: t) =
        encStr k ++ (':' :: encJ v) ++ (',' :: encFieldsL (q :: t)) := rfl
    have hlen : (encFieldsL ((k, v) :: q :: t)).length =
        (k.data.map escapeChar).flatten.length + 3 + (encJ v).length +
          1 + (encFieldsL (q :: t)).length := by
      rw [hE]
      rw [List.length_append, List.length_append, List.length_cons, List.length_cons]
      simp [encStr]
      omega
    cases fuel with
    | zero => exact absurd hfuel (by omega)
    | succ f =>
      have hinput : encFieldsL ((k, v) :: q :: t) ++ Char.ofNat 125 :: rest =
          '"' :: ((k.data.map escapeChar).flatten ++
            '"' :: ':' :: (encJ v ++
              ',' :: (encFieldsL (q :: t) ++ Char.ofNat 125 :: rest))) := by
        rw [hE]
        show ((('"' :: ((k.data.map escapeChar).flatten ++ ['"'])) ++
          (':' :: encJ v)) ++ (',' :: encFieldsL (q :: t))) ++ _ = _
        simp [List.append_assoc]
      have hbv : ∀ c,
          (',' :: (encFieldsL (q :: t) ++ Char.ofNat 125 :: rest)).head? = some c →
          isDigitCh c = false := by
        intro c hc
        have h2 := Option.some.inj hc
        rw [← h2]
        decide
      have hv' := hv f (',' :: (encFieldsL (q :: t) ++ Char.ofNat 125 :: rest))
        (by omega) hbv
      have hrec := parseFields_enc (q :: t) (by simp)
        (fun z hz => hrt z (List.mem_cons_of_mem (k, v) hz)) f rest (by omega)
      rw [hinput, parseFields_succ]
      rw [skipWS_cons_false '"' _ (by decide)]
      simp only [show ('"'.toNat = 34) = True by simp, if_true]
      rw [parseStringBody_enc k.data
        (':' :: (encJ v ++ ',' :: (encFieldsL (q :: t) ++ Char.ofNat 125 :: rest)))]
      simp [skipWS_cons_false ':'
          (encJ v ++ ',' :: (encFieldsL (q :: t) ++ Char.ofNat 125 :: rest))
          (by decide),
        hv',
        skipWS_cons_false ',' (encFieldsL (q :: t) ++ Char.ofNat 125 :: rest)
          (by decide),
        hrec, mapFst]

/-- Every JSON value round-trips through serialization and parsing. -/
theorem parseRT_all : ∀ v, ParseRT v := by
  intro v
  induction v using Json.indOn with
  | hnull =>
    intro fuel rest hfuel hb
    have h4 : (encJ Json.null).length = 4 := rfl
    cases fuel with
    | zero => exact absurd hfuel (by omega)
    | succ f => rfl
  | hbool b =>
    cases b with
    | false =>
      intro fuel rest hfuel hb
      have h5 : (encJ (Json.bool false)).length = 5 := rfl
      cases fuel with
      | zero => exact absurd hfuel (by omega)
      | succ f => rfl
    | true =>
      intro fuel rest hfuel hb
      have h4 : (encJ (Json.bool true)).length = 4 := rfl
      cases fuel with
      | zero => exact absurd hfuel (by omega)
      | succ f => rfl
  | hnum n =>
    intro fuel rest hfuel hb
    have h1 : 1 ≤ (encJ (Json.num n)).length := encJ_length _
    cases fuel with
    | zero => exact absurd hfuel (by omega)
    | succ f =>
      by_cases hneg : n < 0
      · have hE : encJ (Json.num n) = '-' :: natDigits n.natAbs := by
          simp [encJ, encInt, hneg]
        rw [hE, List.cons_append]
        have hstep : parseVal (f + 1) ('-' :: (natDigits n.natAbs ++ rest)) =
            mapFst (fun (m : Nat) => Json.num (-(Int.ofNat m)))
              (parseNat (natDigits n.natAbs ++ rest)) := rfl
        rw [hstep, parseNat_natDigits n.natAbs rest hb]
        have : -(Int.ofNat n.natAbs) = n := by
          simp only [Int.ofNat_eq_coe]
          omega
        rw [show mapFst (fun (m : Nat) => Json.num (-(Int.ofNat m)))
            (some (n.natAbs, rest)) =
            some (Json.num (-(Int.ofNat n.natAbs)), rest) from rfl, this]
      · have hE : encJ (Json.num n) = natDigits n.natAbs := by
          simp [encJ, encInt, hneg]
        obtain ⟨d, tl, hd, h48, h57⟩ := natDigits_head n.natAbs
        rw [hE, hd, List.cons_append]
        rw [parseVal_succ_digit f d (tl ++ rest) h48 h57]
        rw [← List.cons_append, ← hd, parseNat_natDigits n.natAbs rest hb]
        have : Int.ofNat n.natAbs = n := by
          simp only [Int.ofNat_eq_coe]
          omega
        rw [show mapFst (fun (m : Nat) => Json.num (Int.ofNat m))
            (some (n.natAbs, rest)) =
            some (Json.num (Int.ofNat n.natAbs), rest) from rfl, this]
  | hstr s =>
    intro fuel rest hfuel hb
    have h1 : 1 ≤ (encJ (Json.str s)).length := encJ_length _
    cases fuel with
    | zero => exact absurd hfuel (by omega)
    | succ f =>
      have hinput : encJ (Json.str s) ++ rest =
          '"' :: ((s.data.map escapeChar).flatten ++ '"' :: rest) := by
        show (('"' :: (s.data.map escapeChar).flatten) ++ ['"']) ++ rest = _
        simp [List.append_assoc]
      rw [hinput]
      have hstep : parseVal (f + 1)
          ('"' :: ((s.data.map escapeChar).flatten ++ '"' :: rest)) =
          mapFst (fun l => Json.str (String.mk l))
            (parseStringBody ((s.data.map escapeChar).flatten ++ '"' :: rest)) := rfl
      rw [hstep, parseStringBody_enc s.data rest]
      rfl
  | harr xs ih =>
    intro fuel rest hfuel hb
    cases xs with
    | nil =>
      have h2 : (encJ (Json.arr [])).length = 2 := rfl
      cases fuel with
      | zero => exact absurd hfuel (by omega)
      | succ f => rfl
    | cons x xs' =>
      have h1 := encElemsL_length x xs'
      have hlen : (encJ (Json.arr (x :: xs'))).length =
          (encElemsL (x :: xs')).length + 2 := by
        show ('[' :: (encElemsL (x :: xs') ++ [']'])).length = _
        simp
      cases fuel with
      | zero => exact absurd hfuel (by omega)
      | succ f =>
        have hinput : encJ (Json.arr (x :: xs')) ++ rest =
            '[' :: (encElemsL (x :: xs') ++ ']' :: rest) := by
          show ('[' :: (encElemsL (x :: xs') ++ [']'])) ++ rest = _
          simp [List.append_assoc]
        rw [hinput]
        obtain ⟨d, tl, hdE, hdws, hd93⟩ := encElemsL_head x xs'
        have hstep : parseVal (f + 1)
            ('[' :: (encElemsL (x :: xs') ++ ']' :: rest)) =
            (match skipWS (encElemsL (x :: xs') ++ ']' :: rest) with
             | [] => none
             | c2 :: rest2 =>
               if c2.toNat = 93 then some (.arr [], rest2)
               else mapFst Json.arr (parseElems f (c2 :: rest2))) := rfl
        rw [hstep, hdE, List.cons_append,
          skipWS_cons_false d (tl ++ ']' :: rest) hdws]
        dsimp only
        rw [if_neg hd93]
        rw [← List.cons_append, ← hdE,
          parseElems_enc (x :: xs') (by simp) ih f rest (by omega)]
        rfl
  | hobj fs ih =>
    intro fuel rest hfuel hb
    cases fs with
    | nil =>
      have h2 : (encJ (Json.obj [])).length = 2 := rfl
      cases fuel with
      | zero => exact absurd hfuel (by omega)
      | succ f => rfl
    | cons p fs' =>
      have h1 := encFieldsL_length p fs'
      have hlen : (encJ (Json.obj (p :: fs'))).length =
          (encFieldsL (p :: fs')).length + 2 := by
        show (Char.ofNat 123 :: (encFieldsL (p :: fs') ++ [Char.ofNat 125])).length = _
        simp
      cases fuel with
      | zero => exact absurd hfuel (by omega)
      | succ f =>
        have hinput : encJ (Json.obj (p :: fs')) ++ rest =
            Char.ofNat 123 :: (encFieldsL (p :: fs') ++ Char.ofNat 125 :: rest) := by
          show (Char.ofNat 123 :: (encFieldsL (p :: fs') ++ [Char.ofNat 125])) ++ rest = _
          simp [List.append_assoc]
        rw [hinput]
        obtain ⟨tl, hdE⟩ := encFieldsL_head p fs'
        have hstep : parseVal (f + 1)
            (Char.ofNat 123 :: (encFieldsL (p :: fs') ++ Char.ofNat 125 :: rest)) =
            (match skipWS (encFieldsL (p :: fs') ++ Char.ofNat 125 :: rest) with
             | [] => none
             | c2 :: rest2 =>
               if c2.toNat = 125 then some (.obj [], rest2)
               else mapFst Json.obj (parseFields f (c2 :: rest2))) := rfl
        rw [hstep, hdE, List.cons_append,
          skipWS_cons_false '"' (tl ++ Char.ofNat 125 :: rest) (by decide)]
        dsimp only
        rw [if_neg (show ¬('"'.toNat = 125) by decide)]
        rw [← List.cons_append, ← hdE,
          parseFields_enc (p :: fs') (by simp) ih f rest (by omega)]
        rfl

/-- `JSON.parse` inverts `JSON.stringify` on every JSON value. -/
theorem Json.parse_stringify (v : Json) : Json.parse (Json.stringify v) = some v := by
  unfold Json.parse Json.stringify
  have hdata : (String.mk (encJ v)).data = encJ v := rfl
  rw [hdata]
  have h := parseRT_all v (2 * (encJ v).length + 2) [] (by omega)
    (fun c hc => Option.noConfusion hc)
  rw [List.append_nil] at h
  rw [h]
  rfl

/-- C5: a verb call whose response is ok and whose body is the JSON
encoding of a value returns that value: the client hands back the parsed
body unchanged, and parsing inverts serialization up to structural
equality (theorem `Json.parse_stringify`). -/
theorem C5_roundtrip_body (c : RESTClient) (m path : String)
    (params : Option (List (String × String))) (data : Option Json)
    (opts : Option RequestInit) (v : Json) (res : Response)
    (hres : c.fetchFn (c.requestURL path params) (requestOpt m data opts) = res)
    (hok : res.ok = true)
    (hbody : res.bodyText = Json.stringify v) :
    c.getParsedResponseBody m path params data opts = .ok v := by
  simp only [RESTClient.getParsedResponseBody, RESTClient.send]
  rw [hres, hok]
  simp [hbody, Json.parse_stringify v]

/-- Witness for C5 at the spec's scenario: a GET on `./tags` against base
`https://api.example.com/api/` answered 200 with body
a JSON object holding the tag list returns exactly that object. -/
theorem C5_witness :
    (mkRESTClient (some "https://api.example.com/api/") none
      (constFetch ⟨200, [], "\x7b\"tags\":[\"a\",\"b\"]\x7d"⟩)).get "./tags" none none =
      .ok (Json.obj [("tags", Json.arr [Json.str "a", Json.str "b"])]) :=
  C5_roundtrip_body
    (mkRESTClient (some "https://api.example.com/api/") none
      (constFetch ⟨200, [], "\x7b\"tags\":[\"a\",\"b\"]\x7d"⟩))
    "GET" "./tags" none none none
    (Json.obj [("tags", Json.arr [Json.str "a", Json.str "b"])])
    ⟨200, [], "\x7b\"tags\":[\"a\",\"b\"]\x7d"⟩ rfl rfl (by decide)
